import Mathlib

/-!
Shallow embedding of `src/html_text.py` (class `HtmlText`): the tag-stack
visibility tracker driven by HTML parse events, the text-normalization
routine `remove_extra_characters`, the `tokenize` splitter and the
`find_most_frequent_words` ranker, together with proofs settling the
specification claims about them.

Conventions: Python strings are modelled as `String` / `List Char`
(Python operates on code points, as does `List Char`), Python `int` as
`Int` where negative values are observable (the `max_` parameter), and
exceptions (`IndexError` from `list.pop()` on an empty list, or `[-1]`
on an empty list) as `Except PyErr`.  The Python tag stack appends at
the end and pops from the end; here the head of the list is the top of
the stack.
-/

/-- Python `IndexError`, the only exception the modelled code can raise. -/
inductive PyErr where
  | indexError
deriving DecidableEq, Repr

instance {ε α : Type} [DecidableEq ε] [DecidableEq α] : DecidableEq (Except ε α) := fun a b =>
  match a, b with
  | .ok x, .ok y => decidable_of_iff (x = y) ⟨fun h => congrArg _ h, fun h => by injection h⟩
  | .error x, .error y =>
      decidable_of_iff (x = y) ⟨fun h => congrArg _ h, fun h => by injection h⟩
  | .ok _, .error _ => isFalse fun h => Except.noConfusion h
  | .error _, .ok _ => isFalse fun h => Except.noConfusion h

/-- `TAGS_TO_EXCLUDE` from `html_text.py`: tags whose enclosed data is
never appended to the extracted text.  `"!--"` is the comment marker. -/
def TAGS_TO_EXCLUDE : List String :=
  ["!--", "audio", "canvas", "iframe", "noscript", "script", "source", "style", "title", "video"]

/-- One entry of the tag stack: `(tag name, is the tag hidden?)`. -/
abbrev Frame := String × Bool

/-- The bottom sentinel frame `("", False)` installed by `__init__` and
`parse_document`. -/
def sentinel : Frame := ("", false)

/-- The mutable state of `HtmlText` that the parse handlers touch:
`_tags` (top of stack first) and `parsed_text`. -/
structure ParserState where
  tags : List Frame
  parsedText : String
deriving DecidableEq, Repr

/-- The state set up by `__init__` / reset by `parse_document`:
stack `[("", False)]`, empty accumulated text. -/
def initState : ParserState := ⟨[sentinel], ""⟩

/-- `handle_starttag`: push `(tag, hidden)` where `hidden` is
`'hidden' in [attr[0] for attr in attrs]`. -/
def handleStarttag (st : ParserState) (tag : String) (attrs : List (String × String)) :
    ParserState :=
  { st with tags := (tag, (attrs.map Prod.fst).contains "hidden") :: st.tags }

/-- The loop of `handle_endtag`: `while tag != self._tags.pop()[0]`.
Pops frames (top first) until the popped frame's name equals `tag`;
`none` models the `IndexError` raised by `pop()` on an empty list. -/
def popUntil (tag : String) : List Frame → Option (List Frame)
  | [] => none
  | f :: rest => if f.1 = tag then some rest else popUntil tag rest

/-- `handle_endtag`. -/
def handleEndtag (st : ParserState) (tag : String) : Except PyErr ParserState :=
  match popUntil tag st.tags with
  | some ts => .ok { st with tags := ts }
  | none => .error .indexError

/-- `handle_data`: append `raw_text` to `parsed_text` iff
`self._tags[-1][0] not in TAGS_TO_EXCLUDE and self._tags[-1][1] is False`.
`[-1]` on an empty list raises `IndexError`. -/
def handleData (st : ParserState) (rawText : String) : Except PyErr ParserState :=
  match st.tags with
  | [] => .error .indexError
  | f :: _ =>
      .ok { st with parsedText :=
        if !(TAGS_TO_EXCLUDE.contains f.1) && (f.2 == false) then st.parsedText ++ rawText
        else st.parsedText }

/-- One parse event delivered by `HTMLParser.feed` to the handlers. -/
inductive HtmlEvent where
  | startTag (tag : String) (attrs : List (String × String))
  | endTag (tag : String)
  | textData (s : String)
deriving DecidableEq, Repr

/-- The name carried by an end-tag event, if any. -/
def eventEndName : HtmlEvent → Option String
  | .endTag tag => some tag
  | _ => none

/-- Dispatch one event to the matching handler. -/
def stepEvent (st : ParserState) : HtmlEvent → Except PyErr ParserState
  | .startTag tag attrs => .ok (handleStarttag st tag attrs)
  | .endTag tag => handleEndtag st tag
  | .textData s => handleData st s

/-- Run a sequence of parse events, stopping at the first raised error
(an uncaught exception aborts `feed`). -/
def processEvents (st : ParserState) : List HtmlEvent → Except PyErr ParserState
  | [] => .ok st
  | e :: es =>
      match stepEvent st e with
      | .ok st₂ => processEvents st₂ es
      | .error err => .error err

/-- The stack invariant claimed by the spec: the bottom of the stack is
the sentinel frame `("", False)` (in particular the stack is nonempty). -/
def SentinelAtBottom (tags : List Frame) : Prop := tags.getLast? = some sentinel

instance (tags : List Frame) : Decidable (SentinelAtBottom tags) := by
  unfold SentinelAtBottom; infer_instance

-- Sanity checks on concrete runs (the unit tests' small documents).
example : processEvents initState
    [.startTag "p" [], .textData "hi", .endTag "p"] = .ok ⟨[sentinel], "hi"⟩ := by decide
example : processEvents initState
    [.startTag "script" [], .textData "x", .endTag "script"] = .ok ⟨[sentinel], ""⟩ := by decide
example : processEvents initState
    [.startTag "p" [("hidden", "")], .textData "x", .endTag "p"] = .ok ⟨[sentinel], ""⟩ := by
  decide

/-! ## `remove_extra_characters` -/

/-- The apostrophe character (code point 39). -/
def apostrophe : Char := Char.ofNat 39

/-- The opening curly brace character (code point 123). -/
def lbraceChar : Char := Char.ofNat 123

/-- The closing curly brace character (code point 125). -/
def rbraceChar : Char := Char.ofNat 125

/-- Python `str.replace(pat, rep)`: replace every leftmost,
non-overlapping occurrence of `pat` by `rep`.  The fuel argument starts
at the length of the scanned list and bounds the recursion; every
recursive call scans a strictly shorter list, so with that starting
fuel the zero-fuel fallback is never reached for the nonempty patterns
used here. -/
def replaceAllAux (pat rep : List Char) : Nat → List Char → List Char
  | _, [] => []
  | 0, l => l
  | fuel + 1, c :: cs =>
      if !pat.isEmpty && pat.isPrefixOf (c :: cs) then
        rep ++ replaceAllAux pat rep fuel (cs.drop (pat.length - 1))
      else c :: replaceAllAux pat rep fuel cs

/-- Python `str.replace(pat, rep)` on code-point lists. -/
def replaceAll (pat rep l : List Char) : List Char :=
  replaceAllAux pat rep l.length l

/-- `symbols_to_remove = ('&nbsp;', "'")` from `remove_extra_characters`. -/
def symbolsToRemove : List (List Char) := ["&nbsp;".data, [apostrophe]]

/-- `symbols_to_replace` from `remove_extra_characters`, in source order:
question mark, exclamation point, colon, semicolon, hyphen, brackets,
braces, parentheses, apostrophe, quotation mark, three-dot ellipsis,
newline, tab. -/
def symbolsToReplace : List (List Char) :=
  [['?'], ['!'], [':'], [';'], ['-'], ['['], [']'], [lbraceChar], [rbraceChar], ['('], [')'],
   [apostrophe], ['"'], ['.', '.', '.'], ['\n'], ['\t']]

/-- Step 1 of `remove_extra_characters`: delete every `&nbsp;` and
apostrophe (`text.replace(symbol, '')`). -/
def removeSymbols (t : List Char) : List Char :=
  symbolsToRemove.foldl (fun t p => replaceAll p [] t) t

/-- Steps 2 and 3 of `remove_extra_characters`: replace each listed
symbol by a single space (`text.replace(symbol, ' ')`). -/
def replaceSymbols (t : List Char) : List Char :=
  symbolsToReplace.foldl (fun t p => replaceAll p [' '] t) t

/-- Step 4 of `remove_extra_characters`:
`re.sub(r'((?<!\d))[.,]((?!\d))', r'\1 \2', text)`.  Each match consumes
exactly one period or comma and both lookarounds are zero-width checks
against the subject string, so the substitution is a per-position map:
a `.` or `,` becomes a space iff the preceding character (if any) is
not a digit and the following character (if any) is not a digit.
`prev` carries the character preceding the current position. -/
def nanSubAux (prev : Option Char) : List Char → List Char
  | [] => []
  | c :: cs =>
      (if ((c == '.') || (c == ',')) &&
          (match prev with | some p => !p.isDigit | none => true) &&
          (match cs with | d :: _ => !d.isDigit | [] => true)
        then ' ' else c) :: nanSubAux (some c) cs

/-- The `nan_pattern` substitution applied to a whole text. -/
def nanSub (t : List Char) : List Char := nanSubAux none t

/-- The lookbehind `(?<!\d)` at position `i` of `t`, with `prev` the
character preceding the whole of `t` (if any): true iff the character
before position `i` is absent or not a digit. -/
def nanPrevOk (prev : Option Char) (t : List Char) (i : Nat) : Bool :=
  match i with
  | 0 =>
      match prev with
      | some p => !p.isDigit
      | none => true
  | j + 1 => !(t.getD j 'x').isDigit

/-- The lookahead `(?!\d)` at position `i` of `t`: true iff the
character after position `i` is absent or not a digit. -/
def nanNextOk (t : List Char) (i : Nat) : Bool := !(t.getD (i + 1) 'x').isDigit

/-- `HtmlText.remove_extra_characters`, composed exactly as in the
source: deletions, then space replacements, then the numeral-aware
period/comma substitution. -/
def removeExtraCharacters (t : List Char) : List Char :=
  nanSub (replaceSymbols (removeSymbols t))

-- Sanity checks: the `test_remove_extra_characters` unit-test table.
example : removeExtraCharacters "".data = "".data := by decide
example : removeExtraCharacters "Declarative sentence.".data = "Declarative sentence ".data := by
  decide
example : removeExtraCharacters "12.34".data = "12.34".data := by decide
example : removeExtraCharacters "I won a 1,000 $ !!!!".data = "I won a 1,000 $     ".data := by
  decide
example : removeExtraCharacters "Hmmm...".data = "Hmmm ".data := by decide
example : removeExtraCharacters "kitten&nbsp;9".data = "kitten9".data := by decide
example :
    removeExtraCharacters ['w', 'o', 'r', 'l', 'd', apostrophe, 's'] =
      ['w', 'o', 'r', 'l', 'd', 's'] := by decide

/-! ## `tokenize` -/

/-- Python `str.split()` with no separator: split on runs of whitespace
and discard empty pieces.  `acc` holds the characters of the word being
built, in reverse. -/
def pySplitAux : List Char → List Char → List String
  | [], [] => []
  | [], acc => [String.mk acc.reverse]
  | c :: cs, acc =>
      if c.isWhitespace then
        match acc with
        | [] => pySplitAux cs []
        | _ :: _ => String.mk acc.reverse :: pySplitAux cs []
      else pySplitAux cs (c :: acc)

/-- Python `text.split()`. -/
def pySplitWhitespace (s : String) : List String := pySplitAux s.data []

/-- `HtmlText.tokenize`: split on whitespace, lowercase every word
(`word.lower()`, modelled per code point by `Char.toLower`). -/
def tokenize (text : String) : List String :=
  (pySplitWhitespace text).map (fun w => String.mk (w.data.map Char.toLower))

-- Sanity checks: the `test_tokenize` unit-test table.
example : tokenize "" = [] := by decide
example : tokenize "To be or not to be" = ["to", "be", "or", "not", "to", "be"] := by decide
example : tokenize "Buy 1,000 items for 12.34$" = ["buy", "1,000", "items", "for", "12.34$"] := by
  decide
example : tokenize "hello heLLO HELLO" = ["hello", "hello", "hello"] := by decide

/-! ## `find_most_frequent_words` -/

/-- Python string `<=` on code-point lists: lexicographic comparison of
code points.  Used to model the string component of the sort key
`(-item[1], item[0])`. -/
def pyStrLeB : List Char → List Char → Bool
  | [], _ => true
  | _ :: _, [] => false
  | a :: as, b :: bs =>
      if a.toNat < b.toNat then true
      else if b.toNat < a.toNat then false
      else pyStrLeB as bs

/-- The order realized by `sorted(word_frequency.items(), key=lambda
item: (-item[1], item[0]))`: occurrence count descending, then word
ascending in code-point lexicographic order. -/
def rankLE (a b : String × Nat) : Prop :=
  b.2 < a.2 ∨ (a.2 = b.2 ∧ pyStrLeB a.1.data b.1.data = true)

instance : DecidableRel rankLE := fun a b => by
  unfold rankLE; infer_instance

/-- `word_frequency = {word: words.count(word) for word in set(words)}`:
one `(word, count)` pair per distinct word.  The enumeration order of
the Python `set` is irrelevant because the sort key is injective on
distinct words, so we enumerate via `List.dedup`. -/
def wordFrequency (words : List String) : List (String × Nat) :=
  words.dedup.map (fun w => (w, words.count w))

/-- `sorted(word_frequency.items(), key=lambda item: (-item[1], item[0]))`. -/
def sortedFrequency (words : List String) : List (String × Nat) :=
  List.insertionSort rankLE (wordFrequency words)

/-- Python slice `l[:k]`: for `k < 0` it drops the last `-k` elements
(clamped at the empty list), for `k ≥ 0` it takes the first `k`. -/
def pyTake {α : Type} (l : List α) (k : Int) : List α :=
  if 0 ≤ k then l.take k.toNat else l.take ((l.length : Int) + k).toNat

/-- `HtmlText.find_most_frequent_words`:
`sorted_frequency[:min(max_, len(sorted_frequency))]`. -/
def findMostFrequentWords (words : List String) (max_ : Int) : List (String × Nat) :=
  pyTake (sortedFrequency words) (min max_ ((sortedFrequency words).length : Int))

-- Sanity checks: the `test_find_most_frequent_words` unit-test table.
example : findMostFrequentWords [] 10 = [] := by decide
example : findMostFrequentWords [""] 10 = [("", 1)] := by decide
example : findMostFrequentWords ["to", "be", "or", "not", "to", "be"] 10 =
    [("be", 2), ("to", 2), ("not", 1), ("or", 1)] := by decide
example : findMostFrequentWords ["to", "be", "or", "not", "to", "be"] 1 = [("be", 2)] := by decide
example : findMostFrequentWords ["hello", "hello", "hello"] 4 = [("hello", 3)] := by decide
example : findMostFrequentWords ["$", "%", "^", "&", "*", "@"] 10 =
    [("$", 1), ("%", 1), ("&", 1), ("*", 1), ("@", 1), ("^", 1)] := by decide

/-- The code-point lexicographic comparison is total. -/
lemma pyStrLeB_total : ∀ a b : List Char, pyStrLeB a b = true ∨ pyStrLeB b a = true := by
  intro a
  induction a with
  | nil => intro b; left; rfl
  | cons x xs ih =>
      intro b
      cases b with
      | nil => right; rfl
      | cons y ys =>
          rcases Nat.lt_trichotomy x.toNat y.toNat with h | h | h
          · left; simp [pyStrLeB, h]
          · have h1 : ¬x.toNat < y.toNat := by omega
            have h2 : ¬y.toNat < x.toNat := by omega
            simp only [pyStrLeB, if_neg h1, if_neg h2]
            exact ih ys
          · right; simp [pyStrLeB, h]

/-- The code-point lexicographic comparison is transitive. -/
lemma pyStrLeB_trans : ∀ a b c : List Char,
    pyStrLeB a b = true → pyStrLeB b c = true → pyStrLeB a c = true := by
  intro a
  induction a with
  | nil => intro b c _ _; rfl
  | cons x xs ih =>
      intro b c hab hbc
      cases b with
      | nil => simp [pyStrLeB] at hab
      | cons y ys =>
          cases c with
          | nil => simp [pyStrLeB] at hbc
          | cons z zs =>
              simp only [pyStrLeB] at hab hbc ⊢
              split_ifs at hab hbc ⊢ <;>
                first
                  | rfl
                  | omega
                  | exact ih ys zs hab hbc

instance : IsTotal (String × Nat) rankLE := by
  constructor
  intro a b
  rcases Nat.lt_trichotomy a.2 b.2 with h | h | h
  · exact Or.inr (Or.inl h)
  · rcases pyStrLeB_total a.1.data b.1.data with h' | h'
    · exact Or.inl (Or.inr ⟨h, h'⟩)
    · exact Or.inr (Or.inr ⟨h.symm, h'⟩)
  · exact Or.inl (Or.inl h)

instance : IsTrans (String × Nat) rankLE := by
  constructor
  intro a b c hab hbc
  rcases hab with hab | ⟨hab1, hab2⟩ <;> rcases hbc with hbc | ⟨hbc1, hbc2⟩
  · exact Or.inl (by omega)
  · exact Or.inl (by omega)
  · exact Or.inl (by omega)
  · exact Or.inr ⟨hab1.trans hbc1, pyStrLeB_trans _ _ _ hab2 hbc2⟩

/-! ## Claims about the parse handlers -/

/-- C1: on a text-data event, the text is appended to `parsed_text` iff
the top-of-stack tag name is not in `TAGS_TO_EXCLUDE` and the
top-of-stack hidden flag is false; otherwise the accumulator (and hence
the extraction output) is left unchanged, so text under an excluded or
hidden innermost tag never enters the output. -/
theorem claim_C1 (f : Frame) (rest : List Frame) (acc text : String) :
    handleData ⟨f :: rest, acc⟩ text =
      .ok ⟨f :: rest, if f.1 ∉ TAGS_TO_EXCLUDE ∧ f.2 = false then acc ++ text else acc⟩ := by
  by_cases h₁ : f.1 ∈ TAGS_TO_EXCLUDE <;> by_cases h₂ : f.2 = false <;>
    simp [handleData, h₁, h₂]

/-- C6: a start-tag event pushes exactly one frame, whose hidden flag is
true iff some attribute is literally named `hidden` (its value is
ignored), and touches nothing else in the state. -/
theorem claim_C6 (st : ParserState) (tag : String) (attrs : List (String × String)) :
    ∃ h : Bool,
      (handleStarttag st tag attrs).tags = (tag, h) :: st.tags ∧
      (h = true ↔ ∃ v, ("hidden", v) ∈ attrs) ∧
      (handleStarttag st tag attrs).parsedText = st.parsedText := by
  refine ⟨(attrs.map Prod.fst).contains "hidden", rfl, ?_, rfl⟩
  have hc : (attrs.map Prod.fst).contains "hidden" = true ↔ "hidden" ∈ attrs.map Prod.fst := by
    simp
  rw [hc, List.mem_map]
  constructor
  · rintro ⟨⟨n, v⟩, hmem, hn⟩
    exact ⟨v, by simpa [← hn] using hmem⟩
  · rintro ⟨v, hv⟩
    exact ⟨("hidden", v), hv, rfl⟩

/-- `popUntil` fails (Python: `pop()` raised `IndexError` after every
frame, the sentinel included, was popped) iff the closing tag's name
occurs in no frame of the stack. -/
lemma popUntil_eq_none_iff (tag : String) :
    ∀ tags : List Frame, popUntil tag tags = none ↔ tag ∉ tags.map Prod.fst := by
  intro tags
  induction tags with
  | nil => simp [popUntil]
  | cons f rest ih =>
      by_cases h : f.1 = tag
      · simp [popUntil, h]
      · simp only [popUntil, if_neg h, ih, List.map_cons, List.mem_cons]
        constructor
        · intro hn hc
          rcases hc with hc | hc
          · exact h hc.symm
          · exact hn hc
        · intro hn hc
          exact hn (Or.inr hc)

/-- C5 counterexample: the claimed invariant "the stack is never empty
and the sentinel `("", False)` is never popped" is not preserved by
every operation: an end-tag event for `p` in the freshly initialized
state pops every frame — the sentinel included — without finding `p`
and raises the empty-stack pop error. -/
theorem claim_C5_cex :
    popUntil "p" [sentinel] = none ∧
    processEvents initState [HtmlEvent.endTag "p"] = .error .indexError := by
  decide

/-- If a pop for a nonempty tag name succeeds, the sentinel is still at
the bottom of the remaining stack: the scan stops at the topmost frame
named `tag`, which cannot be the sentinel since the sentinel's name is
empty. -/
lemma popUntil_sentinel (tag : String) (hne : tag ≠ "") :
    ∀ tags ts : List Frame, SentinelAtBottom tags → popUntil tag tags = some ts →
      SentinelAtBottom ts := by
  intro tags
  induction tags with
  | nil => intro ts _ hp; cases hp
  | cons f rest ih =>
      intro ts hinv hp
      have hrest : rest ≠ [] → SentinelAtBottom rest := by
        intro hne'
        obtain ⟨g, gs, rfl⟩ := List.exists_cons_of_ne_nil hne'
        simp only [SentinelAtBottom, List.getLast?_cons_cons] at hinv ⊢
        exact hinv
      by_cases hf : f.1 = tag
      · rw [popUntil, if_pos hf] at hp
        injection hp with hp'
        subst hp'
        cases rest with
        | nil =>
            exfalso
            have hf0 : f = sentinel := by
              simpa [SentinelAtBottom] using hinv
            exact hne (hf.symm.trans (by rw [hf0]; rfl))
        | cons g gs =>
            simp only [SentinelAtBottom, List.getLast?_cons_cons] at hinv ⊢
            exact hinv
      · rw [popUntil, if_neg hf] at hp
        have hrne : rest ≠ [] := by
          rintro rfl; cases hp
        exact ih ts (hrest hrne) hp

/-- A successful handler step keeps the sentinel at the bottom of the
stack, provided the event is not an end tag named `""` (the real
event source never produces an empty tag name). -/
lemma stepEvent_sentinel (st st' : ParserState) (e : HtmlEvent)
    (hname : eventEndName e ≠ some "") (hinv : SentinelAtBottom st.tags)
    (hstep : stepEvent st e = .ok st') : SentinelAtBottom st'.tags := by
  have htne : st.tags ≠ [] := by
    intro h; rw [h] at hinv; cases hinv
  cases e with
  | startTag tag attrs =>
      injection hstep with h
      subst h
      obtain ⟨g, gs, hgs⟩ := List.exists_cons_of_ne_nil htne
      show SentinelAtBottom ((tag, (attrs.map Prod.fst).contains "hidden") :: st.tags)
      rw [hgs] at hinv ⊢
      simp only [SentinelAtBottom, List.getLast?_cons_cons] at hinv ⊢
      exact hinv
  | endTag tag =>
      have hne : tag ≠ "" := fun h => hname (by simp [eventEndName, h])
      have hstep' : handleEndtag st tag = .ok st' := hstep
      unfold handleEndtag at hstep'
      cases hp : popUntil tag st.tags with
      | none => rw [hp] at hstep'; cases hstep'
      | some ts =>
          rw [hp] at hstep'
          injection hstep' with h
          subst h
          exact popUntil_sentinel tag hne st.tags ts hinv hp
  | textData s =>
      have hstep' : handleData st s = .ok st' := hstep
      unfold handleData at hstep'
      obtain ⟨g, gs, hgs⟩ := List.exists_cons_of_ne_nil htne
      rw [hgs] at hstep'
      injection hstep' with h
      subst h
      rw [hgs] at hinv
      exact hinv

/-- C5, amended: over any run of start-tag, end-tag and text-data
events in which no end tag is named `""` (true of every event the HTML
parser delivers), if processing completes without the empty-stack pop
error then the stack stays nonempty with the sentinel `("", False)` at
its bottom — the sentinel is popped (followed by the underflow error of
`claim_C5_cex`) exactly when some end tag's name matches no open frame,
so the unconditional invariant claimed by the spec holds only on runs
that do not trigger that underflow. -/
theorem claim_C5 (events : List HtmlEvent) :
    ∀ st st' : ParserState, SentinelAtBottom st.tags →
      (∀ e ∈ events, eventEndName e ≠ some "") →
      processEvents st events = .ok st' → SentinelAtBottom st'.tags := by
  induction events with
  | nil =>
      intro st st' hinv _ hrun
      obtain rfl : st = st' := by injection hrun
      exact hinv
  | cons e es ih =>
      intro st st' hinv hnames hrun
      unfold processEvents at hrun
      cases hstep : stepEvent st e with
      | error err => rw [hstep] at hrun; cases hrun
      | ok st₂ =>
          rw [hstep] at hrun
          exact ih st₂ st'
            (stepEvent_sentinel st st₂ e (hnames e (List.mem_cons_self e es)) hinv hstep)
            (fun e' he' => hnames e' (List.mem_cons_of_mem e he')) hrun

/-- Witness for C5: a balanced run through `p` ends with the sentinel
still at the bottom. -/
theorem claim_C5_witness :
    SentinelAtBottom (ParserState.mk [sentinel] "hi").tags :=
  claim_C5 [HtmlEvent.startTag "p" [], HtmlEvent.textData "hi", HtmlEvent.endTag "p"]
    initState ⟨[sentinel], "hi"⟩ (by decide) (by decide) (by decide)

/-- C10: an end-tag event whose tag name appears in no frame of the
current stack pops everything (bottom sentinel included) and raises the
empty-stack pop error, and that is the only way the handler can fail:
it succeeds exactly when the name occurs somewhere in the stack.  The
error branch is reachable, e.g. by closing `p` in the initial state. -/
theorem claim_C10 :
    (∀ (st : ParserState) (tag : String),
      handleEndtag st tag = .error .indexError ↔ tag ∉ st.tags.map Prod.fst) ∧
    handleEndtag initState "p" = .error .indexError := by
  constructor
  · intro st tag
    rw [← popUntil_eq_none_iff tag st.tags]
    unfold handleEndtag
    cases popUntil tag st.tags <;> simp
  · decide

/-! ## Claims about `find_most_frequent_words` -/

/-- The sorted pair list has one entry per distinct word. -/
lemma sortedFrequency_length (words : List String) :
    (sortedFrequency words).length = words.dedup.length := by
  unfold sortedFrequency
  rw [(List.perm_insertionSort rankLE (wordFrequency words)).length_eq]
  unfold wordFrequency
  rw [List.length_map]

/-- C3: whenever the requested maximum does not truncate (it is at
least the number of distinct tokens), the ranker returns exactly the
distinct `(token, count)` pairs — a permutation of `wordFrequency` —
arranged according to `rankLE`: count descending, ties broken by token
ascending in code-point lexicographic order. -/
theorem claim_C3 (words : List String) (max_ : Int)
    (h : ((wordFrequency words).length : Int) ≤ max_) :
    List.Perm (findMostFrequentWords words max_) (wordFrequency words) ∧
    List.Sorted rankLE (findMostFrequentWords words max_) := by
  have hlen : (sortedFrequency words).length = (wordFrequency words).length :=
    (List.perm_insertionSort rankLE (wordFrequency words)).length_eq
  have heq : findMostFrequentWords words max_ = sortedFrequency words := by
    unfold findMostFrequentWords pyTake
    have hm : min max_ ((sortedFrequency words).length : Int) =
        ((sortedFrequency words).length : Int) := by
      rw [hlen]; omega
    rw [hm, if_pos (Int.ofNat_nonneg _)]
    simp
  rw [heq]
  exact ⟨List.perm_insertionSort rankLE _, List.sorted_insertionSort rankLE _⟩

/-- Witness for C3 at the spec's example: the result for max 10 is the
sorted distinct pairs, concretely `[(be,2),(to,2),(not,1),(or,1)]`. -/
theorem claim_C3_witness :
    List.Perm (findMostFrequentWords ["to", "be", "or", "not", "to", "be"] 10)
      (wordFrequency ["to", "be", "or", "not", "to", "be"]) ∧
    List.Sorted rankLE (findMostFrequentWords ["to", "be", "or", "not", "to", "be"] 10) ∧
    findMostFrequentWords ["to", "be", "or", "not", "to", "be"] 10 =
      [("be", 2), ("to", 2), ("not", 1), ("or", 1)] := by
  have h := claim_C3 ["to", "be", "or", "not", "to", "be"] 10 (by decide)
  exact ⟨h.1, h.2, by decide⟩

/-- C4 counterexample: `max_ = -1 ≤ 0` does not yield an empty result:
Python's negative slice keeps all but the last entry. -/
theorem claim_C4_cex :
    findMostFrequentWords ["a", "b"] (-1) = [("a", 1)] ∧
    findMostFrequentWords ["a", "b"] (-1) ≠ [] := by decide

/-- C4, amended: `max_ = 0` yields an empty result, but for `max_ < 0`
the slice `[:min(max_, len)]` follows Python's negative-index
semantics: it keeps all but the last `-max_` sorted entries (so it is
empty only when `-max_` reaches the number of distinct tokens). -/
theorem claim_C4 :
    (∀ words : List String, findMostFrequentWords words 0 = []) ∧
    ∀ (words : List String) (max_ : Int), max_ < 0 →
      findMostFrequentWords words max_ =
        (sortedFrequency words).take
          ((((sortedFrequency words).length : Int) + max_).toNat) := by
  constructor
  · intro words
    unfold findMostFrequentWords pyTake
    have hm : min (0 : Int) ((sortedFrequency words).length : Int) = 0 :=
      min_eq_left (Int.ofNat_nonneg _)
    rw [hm]
    simp
  · intro words max_ h
    unfold findMostFrequentWords pyTake
    have hm : min max_ ((sortedFrequency words).length : Int) = max_ := by
      have h0 : (0 : Int) ≤ ((sortedFrequency words).length : Int) := Int.ofNat_nonneg _
      omega
    rw [hm, if_neg (by omega)]

/-- Witness for C4's amended negative-slice clause at `max_ = -1`. -/
theorem claim_C4_witness :
    findMostFrequentWords ["a", "b"] (-1) =
      (sortedFrequency ["a", "b"]).take
        ((((sortedFrequency ["a", "b"]).length : Int) + (-1)).toNat) :=
  claim_C4.2 ["a", "b"] (-1) (by decide)

/-- C7: for `max_ ≥ 0` the ranker returns exactly the first
`min(max_, number of distinct tokens)` entries of the sorted pair
sequence (whose length is the number of distinct tokens). -/
theorem claim_C7 (words : List String) (max_ : Int) (h : 0 ≤ max_) :
    findMostFrequentWords words max_ =
      (sortedFrequency words).take (min max_.toNat (sortedFrequency words).length) ∧
    (sortedFrequency words).length = words.dedup.length := by
  refine ⟨?_, sortedFrequency_length words⟩
  unfold findMostFrequentWords pyTake
  have h0 : 0 ≤ min max_ ((sortedFrequency words).length : Int) := by
    have : (0 : Int) ≤ ((sortedFrequency words).length : Int) := Int.ofNat_nonneg _
    omega
  rw [if_pos h0]
  congr 1
  omega

/-- Witness for C7 at the spec's example: max 1 keeps one entry,
concretely `[(be,2)]`. -/
theorem claim_C7_witness :
    (findMostFrequentWords ["to", "be", "or", "not", "to", "be"] 1 =
      (sortedFrequency ["to", "be", "or", "not", "to", "be"]).take
        (min (1 : Int).toNat (sortedFrequency ["to", "be", "or", "not", "to", "be"]).length) ∧
    (sortedFrequency ["to", "be", "or", "not", "to", "be"]).length =
      (["to", "be", "or", "not", "to", "be"] : List String).dedup.length) ∧
    findMostFrequentWords ["to", "be", "or", "not", "to", "be"] 1 = [("be", 2)] :=
  ⟨claim_C7 ["to", "be", "or", "not", "to", "be"] 1 (by decide), by decide⟩

/-! ## Claims about `remove_extra_characters` and `tokenize` -/

/-- Positional characterization of `nanSubAux`: position `i` holds a
space iff the original character there is a period or comma whose
neighbors (with `prev` standing before the list) are both non-digits. -/
lemma nanSubAux_getElem? :
    ∀ (l : List Char) (prev : Option Char) (i : Nat) (c : Char), l[i]? = some c →
      (nanSubAux prev l)[i]? =
        some (if ((c == '.') || (c == ',')) && nanPrevOk prev l i && nanNextOk l i
              then ' ' else c) := by
  intro l
  induction l with
  | nil => intro prev i c h; cases h
  | cons a as ih =>
      intro prev i c h
      cases i with
      | zero =>
          rw [List.getElem?_cons_zero] at h
          injection h with h
          subst h
          cases as with
          | nil =>
              cases prev <;>
                simp [nanSubAux, nanPrevOk, nanNextOk, List.getElem?_cons_zero,
                  List.getD_cons_succ, List.getD_nil]
          | cons d ds =>
              cases prev <;>
                simp [nanSubAux, nanPrevOk, nanNextOk, List.getElem?_cons_zero,
                  List.getD_cons_succ, List.getD_cons_zero]
      | succ j =>
          rw [List.getElem?_cons_succ] at h
          have hp : nanPrevOk (some a) as j = nanPrevOk prev (a :: as) (j + 1) := by
            cases j with
            | zero => simp [nanPrevOk, List.getD_cons_zero]
            | succ k => simp [nanPrevOk, List.getD_cons_succ]
          have hn : nanNextOk as j = nanNextOk (a :: as) (j + 1) := by
            simp [nanNextOk, List.getD_cons_succ]
          simp only [nanSubAux, List.getElem?_cons_succ]
          rw [ih (some a) j c h, hp, hn]

/-- C2 counterexample: a period with a digit on exactly one side is NOT
replaced — `"a.1"` comes out unchanged, not as `"a 1"` as the claim
predicts. -/
theorem claim_C2_cex :
    removeExtraCharacters "a.1".data = "a.1".data ∧ "a.1".data ≠ "a 1".data := by decide

/-- C2, amended: after the earlier removal/replacement steps, a period
or comma is replaced by a single space iff NEITHER the character
immediately before NOR the character immediately after is a digit
(string boundaries count as non-digits); with a digit on at least one
side — not only on both sides — it is preserved, so `"12.34"` and
`"1,000"` are unchanged.  Each period/comma is tested independently,
and this substitution is the final step of `remove_extra_characters`. -/
theorem claim_C2 :
    (∀ (t : List Char) (i : Nat) (c : Char), t[i]? = some c →
      (nanSub t)[i]? =
        some (if ((c == '.') || (c == ',')) && nanPrevOk none t i && nanNextOk t i
              then ' ' else c)) ∧
    (∀ t : List Char, removeExtraCharacters t = nanSub (replaceSymbols (removeSymbols t))) ∧
    removeExtraCharacters "12.34".data = "12.34".data ∧
    removeExtraCharacters "1,000".data = "1,000".data := by
  exact ⟨fun t i c h => nanSubAux_getElem? t none i c h, fun t => rfl, by decide, by decide⟩

/-- Witness for C2's positional clause: in `"x.y"` the period (both
neighbors non-digits) becomes a space. -/
theorem claim_C2_witness :
    ("x.y".data)[1]? = some '.' ∧ (nanSub "x.y".data)[1]? = some ' ' := by
  refine ⟨by decide, ?_⟩
  rw [claim_C2.1 "x.y".data 1 '.' (by decide)]
  decide

/-- C8: character cleanup deletes every `&nbsp;` and apostrophe (no
space inserted) — `"kitten&nbsp;9"` becomes `"kitten9"` and `"world's"`
becomes `"worlds"` — and these deletions are performed first, before
any of the space-replacement steps run. -/
theorem claim_C8 :
    removeExtraCharacters "kitten&nbsp;9".data = "kitten9".data ∧
    removeExtraCharacters ['w', 'o', 'r', 'l', 'd', apostrophe, 's'] =
      ['w', 'o', 'r', 'l', 'd', 's'] ∧
    (∀ t : List Char,
      removeSymbols t = replaceAll [apostrophe] [] (replaceAll "&nbsp;".data [] t)) ∧
    (∀ t : List Char,
      removeExtraCharacters t = nanSub (replaceSymbols (removeSymbols t))) := by
  exact ⟨by decide, by decide, fun t => rfl, fun t => rfl⟩

/-- `List.modifyHead` with the identity function. -/
lemma modifyHead_self (l : List (List Char)) :
    l.modifyHead (fun w => w) = l := by
  cases l <;> simp

/-- `pySplitAux` computes: split at whitespace characters, keep the
nonempty pieces, with `acc.reverse` prefixed to the first piece. -/
lemma pySplitAux_eq (l : List Char) :
    ∀ acc : List Char,
      pySplitAux l acc =
        (((l.splitOnP fun c => c.isWhitespace).modifyHead (acc.reverse ++ ·)).filter
          (fun w => !w.isEmpty)).map (fun w => String.mk w) := by
  induction l with
  | nil =>
      intro acc
      cases acc with
      | nil => simp [pySplitAux]
      | cons a as => simp [pySplitAux]
  | cons c cs ih =>
      intro acc
      by_cases hw : c.isWhitespace
      · have hsplit : (c :: cs).splitOnP (fun c => c.isWhitespace) =
            [] :: cs.splitOnP (fun c => c.isWhitespace) := by
          rw [List.splitOnP_cons, if_pos hw]
        cases acc with
        | nil =>
            have hL : pySplitAux (c :: cs) [] = pySplitAux cs [] := by
              simp only [pySplitAux, if_pos hw]
            rw [hL, ih [], hsplit]
            simp only [List.reverse_nil, List.nil_append, modifyHead_self,
              List.modifyHead_cons, List.filter_cons, List.isEmpty_nil, Bool.not_true,
              Bool.false_eq_true, if_false]
        | cons a as =>
            have hL : pySplitAux (c :: cs) (a :: as) =
                String.mk (a :: as).reverse :: pySplitAux cs [] := by
              simp only [pySplitAux, if_pos hw]
            have hne : ((a :: as).reverse).isEmpty = false := by
              rw [List.isEmpty_eq_false]
              simp
            rw [hL, ih [], hsplit]
            simp only [List.reverse_nil, List.nil_append, modifyHead_self,
              List.modifyHead_cons, List.append_nil, List.filter_cons, hne, Bool.not_false,
              if_true, List.map_cons]
      · have hsplit : (c :: cs).splitOnP (fun c => c.isWhitespace) =
            (cs.splitOnP (fun c => c.isWhitespace)).modifyHead (List.cons c) := by
          rw [List.splitOnP_cons, if_neg (by simpa using hw)]
        have hL : pySplitAux (c :: cs) acc = pySplitAux cs (c :: acc) := by
          simp only [pySplitAux, if_neg hw]
        have hfun : (fun x => (c :: acc).reverse ++ x) =
            ((fun x => acc.reverse ++ x) ∘ List.cons c) := by
          funext w
          simp [Function.comp]
        rw [hL, ih (c :: acc), hsplit, List.modifyHead_modifyHead, hfun]

/-- `pySplitWhitespace` is exactly: split the character list at every
whitespace character and keep the nonempty pieces. -/
lemma pySplitWhitespace_eq (s : String) :
    pySplitWhitespace s =
      ((s.data.splitOnP fun c => c.isWhitespace).filter (fun w => !w.isEmpty)).map
        (fun w => String.mk w) := by
  have h := pySplitAux_eq s.data []
  simpa only [List.reverse_nil, List.nil_append, modifyHead_self] using h

/-- C9: tokenization splits the cleaned text on maximal whitespace runs
(split at every whitespace character, empty pieces discarded),
lowercases every token code point by code point, and keeps tokens in
their original order with duplicates retained; every produced token is
nonempty, and `"hello heLLO HELLO"` yields three copies of `"hello"`. -/
theorem claim_C9 :
    (∀ text : String,
      tokenize text =
        ((text.data.splitOnP fun c => c.isWhitespace).filter (fun w => !w.isEmpty)).map
          (fun w => String.mk (w.map Char.toLower))) ∧
    (∀ text : String, (tokenize text).all (fun tok => !tok.data.isEmpty) = true) ∧
    tokenize "hello heLLO HELLO" = ["hello", "hello", "hello"] := by
  have hfirst : ∀ text : String,
      tokenize text =
        ((text.data.splitOnP fun c => c.isWhitespace).filter (fun w => !w.isEmpty)).map
          (fun w => String.mk (w.map Char.toLower)) := by
    intro text
    rw [tokenize, pySplitWhitespace_eq, List.map_map]
    rfl
  refine ⟨hfirst, ?_, by decide⟩
  intro text
  rw [hfirst text, List.all_eq_true]
  intro tok htok
  rw [List.mem_map] at htok
  obtain ⟨w, hw, rfl⟩ := htok
  rw [List.mem_filter] at hw
  have hne : w ≠ [] := by
    have := hw.2
    simpa [List.isEmpty_eq_false] using this
  cases w with
  | nil => exact absurd rfl hne
  | cons a as => rfl
